import Mathlib

/-!
Verification of the mujoco_warp kernel analyzer (tools/kernel_analyzer/ast_analyzer.py).

This file is a shallow embedding, in Lean 4, of the rule engine of the
kernel-analyzer linter: the module that walks a parsed Python syntax tree,
identifies kernel-decorated function definitions, and runs a fixed battery of
rule checks over each one, producing a list of issues.

Modelling conventions:
* Python strings are Lean `String`s (in this toolchain a `String` is a packed
  `List Char`); the Python operations used by the analyzer
  (`str.endswith`, slicing `[:-n]`, `in` substring test, `str.strip`,
  `str.startswith`) are re-implemented below on `String.data` so that all
  definitions are kernel-computable.
* The schema (the `Model`/`Data` field sets that the Python code obtains by
  reflecting over the external mujoco_warp classes) is an explicit `Schema`
  value passed to every check, as the spec's design notes prescribe: the field
  sets are external data injected into the analyzer, arbitrary but fixed.
* The Python `ast` nodes are modelled by `Expr`, `Param`, `Arguments`,
  `FunctionDef`.  Accessing a field that the concrete node class does not have
  (e.g. `.id` on an `ast.Call`) raises `AttributeError` in Python; here every
  such access is an `Except` value whose `.error` case corresponds to the
  exception.  `analyze` catches these faults exactly where the Python
  `try/except` does.
* `ast.walk` is modelled by its observable interface: the function definitions
  of a module in walk order (`Module.walkOrder`), and, inside a function body,
  the sequence of `Assign` / `AugAssign` / Store-`Subscript` nodes the walk
  yields (`FunctionDef.walkedBody`), which are the only node kinds the
  read-only-write check reacts to.
-/

/-! ## Python string primitives -/

/-- Python `s.endswith(suf)`. -/
def strEndsWith (s suf : String) : Bool := suf.data.isSuffixOf s.data

/-- Python `s.startswith(pre)`. -/
def strStartsWith (s pre : String) : Bool := pre.data.isPrefixOf s.data

/-- Python slicing `s[:-n]` (for `0 < n ≤ len s`): drop the last `n` characters. -/
def strDropRight (s : String) (n : Nat) : String := ⟨s.data.take (s.data.length - n)⟩

/-- Helper for the Python substring test: does `needle` occur in the char list? -/
def containsSub (needle : String) : List Char → Bool
  | [] => needle.data.isEmpty
  | c :: t => needle.data.isPrefixOf (c :: t) || containsSub needle t

/-- Python `needle in s` (substring containment). -/
def strContains (s needle : String) : Bool := containsSub needle s.data

/-- Python `s.strip()`: remove leading and trailing whitespace. -/
def strStrip (s : String) : String :=
  ⟨((s.data.dropWhile Char.isWhitespace).reverse.dropWhile Char.isWhitespace).reverse⟩

/-! ## The syntax-tree model -/

/-- Python `ast` expression nodes, restricted to the shapes the analyzer
inspects: `ast.Name`, `ast.Attribute`, `ast.Call`, `ast.Constant`,
`ast.Subscript`, and a catch-all for any other node class (which
`_get_annotation_info` renders by its class name).  Every node carries its
1-based `lineno` as recorded by the parser. -/
inductive Expr where
  | name (id : String) (lineno : Nat)
  | attrE (value : Expr) (attrName : String) (lineno : Nat)
  | call (func : Expr) (args : List Expr) (keywords : List (Option String × Expr)) (lineno : Nat)
  | constE (value : String) (lineno : Nat)
  | subscriptE (value : Expr) (lineno : Nat)
  | otherE (typeName : String) (lineno : Nat)

/-- The `lineno` attribute of an expression node. -/
def Expr.lineno : Expr → Nat
  | .name _ l => l
  | .attrE _ _ l => l
  | .call _ _ _ l => l
  | .constE _ l => l
  | .subscriptE _ l => l
  | .otherE _ l => l

/-- A formal parameter: its name and optional type annotation
(`ast.arg.arg` and `ast.arg.annotation`). -/
structure Param where
  arg : String
  ann : Option Expr

/-- The `ast.arguments` record of a function definition.  Per the CPython
parser contract, `kwDefaults` has one entry per keyword-only parameter, `none`
standing for the `None` placeholder of a keyword-only parameter without a
default. -/
structure Arguments where
  args : List Param
  kwonlyargs : List Param
  defaults : List Expr
  kwDefaults : List (Option Expr)
  vararg : Option String
  kwarg : Option String

/-- The Assign / AugAssign / Store-context-Subscript nodes that `ast.walk`
yields from a kernel body, in walk order — the only nodes
`_check_no_writes_to_readonly_fields` reacts to.  For an `ast.Assign` the
targets list is recorded; for an `ast.AugAssign` its single target; for a
Store-context `ast.Subscript` its `.value` (the code passes `body_item.value`
to the target checker). -/
inductive WalkItem where
  | assignItem (targets : List Expr)
  | augAssignItem (target : Expr)
  | subscriptStoreItem (value : Expr)

/-- An `ast.FunctionDef` as the analyzer consumes it. -/
structure FunctionDef where
  name : String
  lineno : Nat
  decoratorList : List Expr
  args : Arguments
  walkedBody : List WalkItem

/-- A parsed module: its function definitions in `ast.walk` order. -/
structure PyModule where
  walkOrder : List FunctionDef

/-- Result of `ast.parse`: either a `SyntaxError` or a tree. -/
inductive ParseResult where
  | syntaxError
  | parsed (m : PyModule)

/-- A source file as `analyze` sees it: its raw lines
(`code_string.splitlines()`) and its parse result. -/
structure Source where
  lines : List String
  parse : ParseResult

/-! ## The schema -/

/-- The externally injected schema: Model and Data field names with their
declared annotation text (the string form that
`_get_model_field_annotations` / `_get_data_field_annotations` recover from
the class sources).  Python dict key order is insertion order, so a list of
pairs is a faithful model. -/
structure Schema where
  modelFields : List (String × String)
  dataFields : List (String × String)

/-- The canonical Model field names (`mjwarp.Model.__annotations__` keys). -/
def modelNames (s : Schema) : List String := s.modelFields.map Prod.fst

/-- The canonical Data field names (`mjwarp.Data.__annotations__` keys),
`raw_data_fields` in the source. -/
def rawDataNames (s : Schema) : List String := s.dataFields.map Prod.fst

/-- Embeds `_get_valid_data_fields`: canonical names plus each name suffixed with
`_in` and with `_out` (dict-merge keeps this key order). -/
def expandedDataNames (s : Schema) : List String :=
  rawDataNames s ++ (rawDataNames s).map (· ++ "_in") ++ (rawDataNames s).map (· ++ "_out")

/-- Assoc-list lookup, i.e. Python `d[k]` returning `none` for a `KeyError`. -/
def lookupStr (l : List (String × String)) (k : String) : Option String :=
  (l.find? (fun kv => kv.fst == k)).map Prod.snd

/-- Embeds `_canonicalize_data_field_name`. -/
def canonicalizeDataFieldName (n : String) : String :=
  if strEndsWith n "_in" then strDropRight n 3
  else if strEndsWith n "_out" then strDropRight n 4
  else n

/-! ## Issues -/

/-- The closed set of issue variants.  Fields mirror the constructor arguments
of the Python issue classes. -/
inductive Issue where
  | defaultsParams (lineno : Nat) (kernel : String)
  | varArgs (lineno : Nat) (kernel : String)
  | kwArgs (lineno : Nat) (kernel : String)
  | typeIssue (lineno : Nat) (kernel paramName paramType expected : String)
  | typeMismatch (lineno : Nat) (kernel paramName actualType expectedType fieldSource : String)
  | argPosition (lineno : Nat) (kernel issueType details : String)
  | modelFieldSuffix (lineno : Nat) (kernel paramName suffix : String)
  | dataFieldSuffix (lineno : Nat) (kernel paramName message : String)
  | missingComment (lineno : Nat) (kernel paramName : String) (paramType : Option String) (expectedComment : String)
  | writeToReadOnly (lineno : Nat) (kernel fieldName fieldType : String)
deriving DecidableEq

/-- The `lineno` attribute every issue variant carries. -/
def Issue.lineno : Issue → Nat
  | .defaultsParams l _ => l
  | .varArgs l _ => l
  | .kwArgs l _ => l
  | .typeIssue l _ _ _ _ => l
  | .typeMismatch l _ _ _ _ _ => l
  | .argPosition l _ _ _ => l
  | .modelFieldSuffix l _ _ _ => l
  | .dataFieldSuffix l _ _ _ => l
  | .missingComment l _ _ _ _ => l
  | .writeToReadOnly l _ _ _ => l

/-- Discriminator: is this a `MissingCommentIssue`? -/
def Issue.isMissingComment : Issue → Bool
  | .missingComment _ _ _ _ _ => true
  | _ => false

/-- Discriminator: is this a `WriteToReadOnlyFieldIssue`? -/
def Issue.isWriteToReadOnly : Issue → Bool
  | .writeToReadOnly _ _ _ _ => true
  | _ => false

/-- Discriminator: is this a `TypeIssue` (missing/invalid annotation)? -/
def Issue.isTypeIssue : Issue → Bool
  | .typeIssue _ _ _ _ _ => true
  | _ => false

/-- Discriminator: is this a `ModelFieldSuffixIssue`? -/
def Issue.isModelFieldSuffix : Issue → Bool
  | .modelFieldSuffix _ _ _ _ => true
  | _ => false

/-- Embeds `WriteToReadOnlyFieldIssue.__str__`, the rendering its `__eq__`/`__hash__`
compare (`\x27` is the ASCII apostrophe).  Other variants never enter the
dedup set, so their rendering is irrelevant here. -/
def renderWrite : Issue → String
  | .writeToReadOnly l k f ty =>
      toString l ++ ": Kernel \x27" ++ k ++ "\x27 writes to " ++ ty ++ " field \x27" ++ f
        ++ "\x27 which should be read-only"
  | _ => ""

/-! ## The annotation stringifier (`_get_annotation_info`) -/

/-- Rendering of `kw.arg` in `_get_annotation_info`: Python formats a missing
keyword name (`None`) as the string `None`. -/
def kwName (o : Option String) : String := o.getD "None"

/-- Embeds `_get_annotation_info`, fuel-indexed so that the definition is structural
(hence kernel-computable).  The Python function recurses on the node tree;
`annFuel` below exceeds the depth of any annotation expression of interest, so
the out-of-fuel branch is never taken on inputs corresponding to real
annotations. -/
def annInfoF : Nat → Expr → String
  | 0, _ => ""
  | Nat.succ k, e =>
    match e with
    | .name i _ => i
    | .attrE v a _ =>
      match v with
      | .name i _ => i ++ "." ++ a
      | .attrE _ _ _ => annInfoF k v ++ "." ++ a
      | _ => a
    | .call f args kws _ =>
      annInfoF k f ++ "(" ++ String.intercalate ", "
        (args.map (annInfoF k) ++ kws.map (fun kv => kwName kv.1 ++ "=" ++ annInfoF k kv.2)) ++ ")"
    | .constE v _ => v
    | .subscriptE _ _ => "Subscript"
    | .otherE t _ => t

/-- Recursion-depth bound for `annInfoF`. -/
def annFuel : Nat := 1000

/-- Runs `_get_annotation_info node` for a present annotation node. -/
def annInfo (e : Expr) : String := annInfoF annFuel e

/-! ## 4.3/4.4 — signature-shape and type-annotation checks -/

/-- Embeds `_EXPECTED_TYPES` as a membership set. -/
def expectedTypes : List String :=
  ["int", "float", "bool", "array", "array2d", "array2df", "array3d", "array3df"]

/-- Renders `str(_EXPECTED_TYPES)`: the display string carried by `TypeIssue`s
(`\x27` is the ASCII apostrophe of the Python `repr`). -/
def expectedTypesStr : String :=
  "(\x27int\x27, \x27float\x27, \x27bool\x27, \x27array\x27, \x27array2d\x27, \x27array2df\x27, \x27array3d\x27, \x27array3df\x27)"

/-- The defaults/varargs/kwargs issues `analyze` emits before the per-check
calls.  `node.args.defaults or node.args.kw_defaults` is Python list
truthiness, i.e. non-emptiness of either list; note `kw_defaults` holds a
`None` placeholder per keyword-only parameter, so it is non-empty whenever a
keyword-only parameter exists. -/
def shapeIssues (node : FunctionDef) : List Issue :=
  (if !node.args.defaults.isEmpty || !node.args.kwDefaults.isEmpty
   then [Issue.defaultsParams node.lineno node.name] else [])
  ++ (if node.args.vararg.isSome then [Issue.varArgs node.lineno node.name] else [])
  ++ (if node.args.kwarg.isSome then [Issue.kwArgs node.lineno node.name] else [])

/-- The `param_type` extraction of `_check_parameter_types` (and of
`_check_parameter_comments`): `param.annotation.func.attr` for an `ast.Call`
annotation, else `param.annotation.id`.  `.error` is the `AttributeError`
raised when the node lacks the accessed field (a `Call` whose `func` is not an
`Attribute`; any non-`Call` node that is not a `Name`, e.g. a `Subscript`). -/
def extractParamTypeName : Expr → Except Unit String
  | .call f _ _ _ =>
    match f with
    | .attrE _ a _ => .ok a
    | _ => .error ()
  | .name i _ => .ok i
  | _ => .error ()

/-- The loop of `_check_parameter_types`.  `ptype` is the Python local
variable `param_type`, which the unannotated branch reads WITHOUT having
assigned it: `none` initially (reading it then raises `UnboundLocalError`,
modelled as `.error` carrying the issues appended so far), and otherwise the
stale value left by a previous iteration. -/
def cptLoop (lineno : Nat) (kname : String) :
    List Param → Option String → List Issue → Except (List Issue) (List Issue)
  | [], _, acc => .ok acc
  | p :: rest, ptype, acc =>
    match p.ann with
    | none =>
      let acc := acc ++ [Issue.typeIssue lineno kname p.arg "" expectedTypesStr]
      match ptype with
      | none => .error acc
      | some t =>
        let acc := if expectedTypes.contains t then acc
                   else acc ++ [Issue.typeIssue lineno kname p.arg t expectedTypesStr]
        cptLoop lineno kname rest (some t) acc
    | some e =>
      match extractParamTypeName e with
      | .error _ => .error acc
      | .ok t =>
        let acc := if expectedTypes.contains t then acc
                   else acc ++ [Issue.typeIssue lineno kname p.arg t expectedTypesStr]
        cptLoop lineno kname rest (some t) acc

/-- Embeds `_check_parameter_types`. -/
def checkParameterTypes (node : FunctionDef) : Except (List Issue) (List Issue) :=
  cptLoop node.lineno node.name node.args.args none []

/-- The loop of `_check_field_type_annotations`: for a parameter matching a
Model field (or, after canonicalization, a Data field), compare the rendered
annotation text with the schema's declared text.  The dictionary lookups are
the Python subscripts `model_annotations[param_name]` /
`data_annotations[param_name]`; a miss is a `KeyError` (`.error`). -/
def cftaLoop (s : Schema) (lineno : Nat) (kname : String) :
    List Param → List Issue → Except (List Issue) (List Issue)
  | [], acc => .ok acc
  | p :: rest, acc =>
    if (modelNames s).contains p.arg then
      match lookupStr s.modelFields p.arg with
      | none => .error acc
      | some expt =>
        match p.ann with
        | none => cftaLoop s lineno kname rest acc
        | some e =>
          let actual := annInfo e
          let acc := if actual == expt then acc
                     else acc ++ [Issue.typeMismatch lineno kname p.arg actual expt "Model"]
          cftaLoop s lineno kname rest acc
    else if (expandedDataNames s).contains p.arg then
      match lookupStr s.dataFields (canonicalizeDataFieldName p.arg) with
      | none => .error acc
      | some expt =>
        match p.ann with
        | none => cftaLoop s lineno kname rest acc
        | some e =>
          let actual := annInfo e
          let acc := if actual == expt then acc
                     else acc ++ [Issue.typeMismatch lineno kname
                       (canonicalizeDataFieldName p.arg) actual expt "Data"]
          cftaLoop s lineno kname rest acc
    else cftaLoop s lineno kname rest acc

/-- Embeds `_check_field_type_annotations`. -/
def checkFieldTypeAnnotations (s : Schema) (node : FunctionDef) :
    Except (List Issue) (List Issue) :=
  cftaLoop s node.lineno node.name node.args.args []

/-! ## 4.6 — naming-suffix checks -/

/-- Embeds `_check_model_field_suffixes`.  NOTE (faithful to the source, lines
415 and 421): BOTH branches test `param_name[:-3] in model_fields`, i.e. the
`_out` branch strips only the 3 characters `out` and keeps the underscore, so
it matches only if a canonical Model field name ends in `_`. -/
def checkModelFieldSuffixes (s : Schema) (node : FunctionDef) : List Issue :=
  node.args.args.flatMap fun p =>
    (if strEndsWith p.arg "_in" && (modelNames s).contains (strDropRight p.arg 3)
     then [Issue.modelFieldSuffix node.lineno node.name p.arg "_in"] else [])
    ++ (if strEndsWith p.arg "_out" && (modelNames s).contains (strDropRight p.arg 3)
        then [Issue.modelFieldSuffix node.lineno node.name p.arg "_out"] else [])

/-- The message of every `DataFieldSuffixIssue`. -/
def invalidSuffixMsg : String :=
  "Invalid suffix. Data fields should use original name or end with _in or _out"

/-- The inner loop of `_check_data_field_suffixes` for one parameter: one
issue per canonical Data field `f` such that the name starts with `f_` (and
does not end in `_in`/`_out`), unless the name is a valid expanded Data
field. -/
def dataSuffixIssuesForParam (s : Schema) (lineno : Nat) (kname : String) (p : Param) :
    List Issue :=
  if (expandedDataNames s).contains p.arg then []
  else
    (rawDataNames s).filterMap fun f =>
      if strStartsWith p.arg (f ++ "_")
          && !(strEndsWith p.arg "_in" || strEndsWith p.arg "_out")
      then some (Issue.dataFieldSuffix lineno kname p.arg invalidSuffixMsg)
      else none

/-- Embeds `_check_data_field_suffixes`. -/
def checkDataFieldSuffixes (s : Schema) (node : FunctionDef) : List Issue :=
  node.args.args.flatMap (dataSuffixIssuesForParam s node.lineno node.name)

/-! ## 4.5 — positional-ordering checks -/

/-- Indices of the parameters whose name satisfies `pred` (`enumerate`). -/
def indicesWhere (pred : String → Bool) (args : List Param) : List Nat :=
  args.enum.filterMap fun ip => if pred ip.2.arg then some ip.1 else none

/-- Reads `node.args.args[i].arg` with Python's guarantee that `i` is in range. -/
def argNameAt (args : List Param) (i : Nat) : String :=
  ((args.get? i).map Param.arg).getD ""

/-- Embeds `_check_model_data_in_the_middle`: the if/elif/else classification of the
source (Model membership tested first, then expanded-Data membership). -/
def checkModelDataInTheMiddle (s : Schema) (node : FunctionDef) : List Issue :=
  let args := node.args.args
  let modelIdx := indicesWhere (fun n => (modelNames s).contains n) args
  let dataIdx := indicesWhere
    (fun n => !(modelNames s).contains n && (expandedDataNames s).contains n) args
  let otherIdx := indicesWhere
    (fun n => !(modelNames s).contains n && !(expandedDataNames s).contains n) args
  let md := modelIdx ++ dataIdx
  if md.isEmpty || otherIdx.isEmpty then []
  else
    match md.min?, md.max? with
    | some lo, some hi =>
      otherIdx.filterMap fun i =>
        if lo < i && i < hi then
          some (Issue.argPosition node.lineno node.name
            "Non-Model/Data parameter in the middle"
            ("Parameter \x27" ++ argNameAt args i ++ "\x27 is between Model/Data parameters"))
        else none
    | _, _ => []

/-- Embeds `_check_model_fields_before_data_fields`. -/
def checkModelFieldsBeforeDataFields (s : Schema) (node : FunctionDef) : List Issue :=
  let args := node.args.args
  let modelIdx := indicesWhere (fun n => (modelNames s).contains n) args
  let dataIdx := indicesWhere
    (fun n => !(modelNames s).contains n && (expandedDataNames s).contains n) args
  match modelIdx.max?, dataIdx.min? with
  | some hiM, some loD =>
    if loD < hiM then
      [Issue.argPosition node.lineno node.name "Model fields after Data fields"
        "Model parameters should come before Data parameters"]
    else []
  | _, _ => []

/-- Embeds `_check_data_fields_order`: regular / `_in` / `_out` Data parameters must
appear in that order; three independent envelope comparisons. -/
def checkDataFieldsOrder (s : Schema) (node : FunctionDef) : List Issue :=
  let args := node.args.args
  let inExp := fun n => (expandedDataNames s).contains n
  let regIdx := indicesWhere
    (fun n => inExp n && !(strEndsWith n "_in") && !(strEndsWith n "_out")) args
  let inIdx := indicesWhere (fun n => inExp n && strEndsWith n "_in") args
  let outIdx := indicesWhere
    (fun n => inExp n && !(strEndsWith n "_in") && strEndsWith n "_out") args
  (match regIdx.max?, inIdx.min? with
   | some hiR, some loI =>
     if loI < hiR then
       [Issue.argPosition node.lineno node.name "Regular Data fields after Data _in fields"
         "Regular Data parameters should come before parameters with _in suffix"]
     else []
   | _, _ => [])
  ++ (match inIdx.max?, outIdx.min? with
   | some hiI, some loO =>
     if loO < hiI then
       [Issue.argPosition node.lineno node.name "Data _in fields after Data _out fields"
         "Parameters with _in suffix should come before parameters with _out suffix"]
     else []
   | _, _ => [])
  ++ (match regIdx.max?, outIdx.min? with
   | some hiR, some loO =>
     if loO < hiR then
       [Issue.argPosition node.lineno node.name "Regular Data fields after Data _out fields"
         "Regular Data parameters should come before parameters with _out suffix"]
     else []
   | _, _ => [])

/-! ## 4.8 — comment-annotation check -/

/-- First index `≥ i` (counting the head of the list as index `i`) of a line
containing `needle`; models the `enumerate(source_lines[start:], start)`
search loops of `_check_parameter_comments`. -/
def findContainAux (needle : String) : List String → Nat → Option Nat
  | [], _ => none
  | l :: ls, i => if strContains l needle then some i else findContainAux needle ls (i + 1)

/-- Computes `func_body_start`: the first line at or after the `def` line (0-based
index `func_line - 1`) containing `(`; if none is found the variable keeps its
initial value `func_line`. -/
def funcBodyStart (lines : List String) (funcLine : Nat) : Nat :=
  match findContainAux "(" (lines.drop (funcLine - 1)) (funcLine - 1) with
  | some i => i
  | none => funcLine

/-- The 0-based source line on which `param_name + ":"` is first found at or
after `bodyStart`. -/
def paramLineOf (lines : List String) (bodyStart : Nat) (pname : String) : Option Nat :=
  findContainAux (pname ++ ":") (lines.drop bodyStart) bodyStart

/-- The `param_type` extraction at the top of the `_check_parameter_comments`
loop (`None` when unannotated; `AttributeError` on unexpected shapes, exactly
as in `_check_parameter_types`). -/
def commentParamType (p : Param) : Except Unit (Option String) :=
  match p.ann with
  | none => .ok none
  | some e => (extractParamTypeName e).map some

/-- One recorded first-of-category parameter:
`(param_name, param_type, param_line, expected_comment)`. -/
structure CatInfo where
  pname : String
  ptype : Option String
  pline : Nat
  marker : String

/-- The slot update for one scanned parameter, mirroring the source's
`if`/`elif` chain (a parameter that is neither a Model nor an expanded Data
field is skipped — the `continue`; a Model parameter seen after `first_model`
is set falls through the chain). -/
def ccUpdate (s : Schema) (p : Param) (pt : Option String) (pl : Nat)
    (m r i o : Option CatInfo) :
    Option CatInfo × Option CatInfo × Option CatInfo × Option CatInfo :=
  if (modelNames s).contains p.arg && m.isNone then (some ⟨p.arg, pt, pl, "# Model"⟩, r, i, o)
  else if !((expandedDataNames s).contains p.arg) then (m, r, i, o)
  else if (rawDataNames s).contains p.arg && r.isNone then (m, some ⟨p.arg, pt, pl, "# Data"⟩, i, o)
  else if strEndsWith p.arg "_in" && i.isNone then (m, r, some ⟨p.arg, pt, pl, "# Data in"⟩, o)
  else if strEndsWith p.arg "_out" && o.isNone then (m, r, i, some ⟨p.arg, pt, pl, "# Data out"⟩)
  else (m, r, i, o)

/-- The first-occurrence scan of `_check_parameter_comments`, filling the four
`first_*` slots via `ccUpdate`; `.error` is the `AttributeError` of the
`param_type` extraction. -/
def ccScan (s : Schema) (lines : List String) (bodyStart : Nat) :
    List Param → Option CatInfo → Option CatInfo → Option CatInfo → Option CatInfo →
    Except Unit (Option CatInfo × Option CatInfo × Option CatInfo × Option CatInfo)
  | [], m, r, i, o => .ok (m, r, i, o)
  | p :: rest, m, r, i, o =>
    match commentParamType p with
    | .error _ => .error ()
    | .ok pt =>
      match paramLineOf lines bodyStart p.arg with
      | none => ccScan s lines bodyStart rest m r i o
      | some pl =>
        let st := ccUpdate s p pt pl m r i o
        ccScan s lines bodyStart rest st.1 st.2.1 st.2.2.1 st.2.2.2

/-- Stable insertion (ties keep the earlier element first), mirroring Python's
stable `list.sort(key=lambda x: x[2])`. -/
def insertByLine (c : CatInfo) : List CatInfo → List CatInfo
  | [] => [c]
  | d :: ds => if c.pline ≤ d.pline then c :: d :: ds else d :: insertByLine c ds

/-- Stable sort of the recorded categories by `param_line`. -/
def sortByLine : List CatInfo → List CatInfo
  | [] => []
  | c :: cs => insertByLine c (sortByLine cs)

/-- The emission loop of `_check_parameter_comments`: for each recorded
category (in ascending line order), if the line preceding the parameter's
declaration line does not contain the marker, emit a `MissingCommentIssue`
whose `lineno` is `param_line` — the 0-BASED index at which the declaration
text was found.  `source_lines[param_line - 1]` with `param_line = 0` is
Python's negative index `-1`, the last line. -/
def emitMissing (lines : List String) (kname : String) (cats : List CatInfo) : List Issue :=
  cats.filterMap fun c =>
    if c.pline < lines.length then
      if strContains
          (strStrip ((lines.get?
            (if c.pline = 0 then lines.length - 1 else c.pline - 1)).getD ""))
          c.marker then none
      else some (Issue.missingComment c.pline kname c.pname c.ptype c.marker)
    else none

/-- Embeds `_check_parameter_comments`.  A fault during the scan (the
`AttributeError` of the `param_type` extraction) aborts the check before any
issue is appended. -/
def checkParameterComments (s : Schema) (lines : List String) (node : FunctionDef) :
    Except (List Issue) (List Issue) :=
  match ccScan s lines (funcBodyStart lines node.lineno) node.args.args none none none none with
  | .error _ => .error []
  | .ok (m, r, i, o) =>
    .ok (emitMissing lines node.name (sortByLine ([m, r, i, o].filterMap id)))

/-! ## 4.7 — read-only enforcement -/

/-- The `readonly_params` table of `_check_no_writes_to_readonly_fields`,
as a lookup: a name maps to "Model" / "Data input" iff some parameter carries
that name and the name is a Model field, resp. ends in `_in` with its prefix a
canonical Data field.  (The Python dict's value depends only on the name, so
duplicate parameter names collapse harmlessly.) -/
def readonlyTypeOf (s : Schema) (args : List Param) (nm : String) : Option String :=
  if args.any (fun p => p.arg == nm) then
    if (modelNames s).contains nm then some "Model"
    else if strEndsWith nm "_in" && (rawDataNames s).contains (strDropRight nm 3) then
      some "Data input"
    else none
  else none

/-- Embeds the `_check_target_for_readonly_writes` name resolution: a bare `Name`'s id;
for `Attribute`/`Subscript` the base object's id when the base is a `Name`;
otherwise no name (and no issue). -/
def resolveTargetName : Expr → Option String
  | .name i _ => some i
  | .attrE v _ _ => match v with | .name i _ => some i | _ => none
  | .subscriptE v _ => match v with | .name i _ => some i | _ => none
  | _ => none

/-- The expressions handed to `_check_target_for_readonly_writes`, in walk
order: every target of an `Assign`, the target of an `AugAssign`, and the
`.value` of a Store-context `Subscript`. -/
def writeEventExprs (node : FunctionDef) : List Expr :=
  node.walkedBody.flatMap fun
    | .assignItem ts => ts
    | .augAssignItem t => [t]
    | .subscriptStoreItem v => [v]

/-- The `WriteToReadOnlyFieldIssue`s as they are handed to the set, one per
resolved write to a read-only parameter, each carrying the written target
node's `lineno`. -/
def rawWriteIssues (s : Schema) (node : FunctionDef) : List Issue :=
  (writeEventExprs node).filterMap fun t =>
    match resolveTargetName t with
    | none => none
    | some nm =>
      match readonlyTypeOf s node.args.args nm with
      | none => none
      | some ty => some (Issue.writeToReadOnly t.lineno node.name nm ty)

/-- Insertion into the Python `set`, whose membership is
`WriteToReadOnlyFieldIssue.__eq__`: equality of the fully rendered text. -/
def addByRender (acc : List Issue) (i : Issue) : List Issue :=
  if acc.any (fun j => renderWrite j == renderWrite i) then acc else acc ++ [i]

/-- Accumulating the raw issues into the dedup set. -/
def dedupByRender (acc : List Issue) : List Issue → List Issue
  | [] => acc
  | i :: rest => dedupByRender (addByRender acc i) rest

/-- Embeds `_check_no_writes_to_readonly_fields`: the raw per-write issues,
deduplicated by rendered text. -/
def checkNoWritesToReadonlyFields (s : Schema) (node : FunctionDef) : List Issue :=
  dedupByRender [] (rawWriteIssues s node)

/-! ## 4.2/4.9 — kernel detection and the `analyze` driver -/

/-- Embeds `any(d.id == "kernel" for d in node.decorator_list)`: short-circuiting;
evaluating `.id` on a decorator that is not an `ast.Name` raises
`AttributeError` (`.error`). -/
def decoratorsContainKernel : List Expr → Except Unit Bool
  | [] => .ok false
  | d :: rest =>
    match d with
    | .name i _ => if i == "kernel" then .ok true else decoratorsContainKernel rest
    | _ => .error ()

/-- The body of the per-kernel portion of `analyze`: the checks in source
order, each appending to the shared issue list.  A check that raises carries
the issues appended before the fault; the surrounding `except` then sees
exactly the concatenation built so far. -/
def processKernel (s : Schema) (lines : List String) (node : FunctionDef) :
    Except (List Issue) (List Issue) :=
  let shape := shapeIssues node
  match checkParameterTypes node with
  | .error p => .error (shape ++ p)
  | .ok t1 =>
    match checkFieldTypeAnnotations s node with
    | .error p => .error (shape ++ t1 ++ p)
    | .ok t2 =>
      let naming := checkModelFieldSuffixes s node ++ checkDataFieldSuffixes s node
      let pos := checkModelDataInTheMiddle s node
        ++ checkModelFieldsBeforeDataFields s node ++ checkDataFieldsOrder s node
      match checkParameterComments s lines node with
      | .error p => .error (shape ++ t1 ++ t2 ++ naming ++ pos ++ p)
      | .ok comments =>
        .ok (shape ++ t1 ++ t2 ++ naming ++ pos ++ comments
          ++ checkNoWritesToReadonlyFields s node)

/-- Processing one walked node: the kernel-decorator test (whose
`AttributeError` on a non-`Name` decorator contributes no issues), skipping
non-kernels, and the per-kernel checks. -/
def processNode (s : Schema) (lines : List String) (node : FunctionDef) :
    Except (List Issue) (List Issue) :=
  match decoratorsContainKernel node.decoratorList with
  | .error _ => .error []
  | .ok false => .ok []
  | .ok true => processKernel s lines node

/-- The traversal loop of `analyze` with the surrounding
`except Exception`: a fault anywhere stops the walk and the accumulated
issues (including those appended before the fault) are returned. -/
def analyzeWalk (s : Schema) (lines : List String) :
    List FunctionDef → List Issue → List Issue
  | [], acc => acc
  | n :: rest, acc =>
    match processNode s lines n with
    | .error p => acc ++ p
    | .ok c => analyzeWalk s lines rest (acc ++ c)

/-- Embeds `analyze(code_string, filename)`: an empty result on a `SyntaxError`,
otherwise the walked issues (the `filename` argument only feeds logging and
is omitted). -/
def analyze (s : Schema) (src : Source) : List Issue :=
  match src.parse with
  | .syntaxError => []
  | .parsed m => analyzeWalk s src.lines m.walkOrder []

deriving instance DecidableEq for Except

/-! ## Parameter classification (§3 of the spec)

The five derived classes a kernel parameter name falls into, given a fixed
schema.  These are the membership tests the checks perform: Model membership
(`param_name in model_fields`), the Data-in test of the read-only table
(`endswith("_in") and param_name[:-3] in Data.__annotations__`), its `_out`
counterpart, and canonical-Data membership for the regular class (which the
spec defines to exclude names whose `_in`/`_out` suffix corresponds to a real
Data field). -/

/-- Class *Model*: the name is a canonical Model field. -/
def isModelClass (s : Schema) (n : String) : Bool := (modelNames s).contains n

/-- Class *Data-in*: the name ends in `_in` and the prefix is a canonical
Data field. -/
def isDataInClass (s : Schema) (n : String) : Bool :=
  strEndsWith n "_in" && (rawDataNames s).contains (strDropRight n 3)

/-- Class *Data-out*: the name ends in `_out` and the prefix is a canonical
Data field. -/
def isDataOutClass (s : Schema) (n : String) : Bool :=
  strEndsWith n "_out" && (rawDataNames s).contains (strDropRight n 4)

/-- Class *Data-regular*: the name is a canonical Data field and carries no
`_in`/`_out` suffix corresponding to a real Data field. -/
def isDataRegularClass (s : Schema) (n : String) : Bool :=
  (rawDataNames s).contains n && !isDataInClass s n && !isDataOutClass s n

/-- Class *Other*: none of the above. -/
def isOtherClass (s : Schema) (n : String) : Bool :=
  !isModelClass s n && !isDataRegularClass s n && !isDataInClass s n && !isDataOutClass s n

/-- How many of the five classes a name satisfies. -/
def classCount (s : Schema) (n : String) : Nat :=
  (if isModelClass s n then 1 else 0) + (if isDataRegularClass s n then 1 else 0)
  + (if isDataInClass s n then 1 else 0) + (if isDataOutClass s n then 1 else 0)
  + (if isOtherClass s n then 1 else 0)

/-! ## Concrete instances used by the closed theorems and witnesses

Schemas use field names from the spec's own examples (`qpos0`, `geom_pos` as
Model fields; `qpos`, `qvel`, `act` as Data fields). -/

/-- Schema with Model field `qpos0` only. -/
def exS1 : Schema := ⟨[("qpos0", "array2d")], []⟩

/-- A kernel whose sole parameter is `qpos0_out` — `qpos0` plus the `_out`
suffix. -/
def exNode1 : FunctionDef :=
  ⟨"k1", 2, [.name "kernel" 1],
   ⟨[⟨"qpos0_out", some (.name "array2d" 3)⟩], [], [], [], none, none⟩, []⟩

/-- The same kernel with parameter `qpos0_in` instead. -/
def exNode1b : FunctionDef :=
  ⟨"k1b", 2, [.name "kernel" 1],
   ⟨[⟨"qpos0_in", some (.name "array2d" 3)⟩], [], [], [], none, none⟩, []⟩

/-- A kernel writing its Model parameter `qpos0` twice: an assignment on
source line 10 and an augmented assignment on source line 11. -/
def exNode2 : FunctionDef :=
  ⟨"k2", 2, [.name "kernel" 1],
   ⟨[⟨"qpos0", some (.name "array2d" 3)⟩], [], [], [], none, none⟩,
   [.assignItem [.name "qpos0" 10], .augAssignItem (.name "qpos0" 11)]⟩

/-- Schema with Model field `qpos0` and Data field `qvel`. -/
def exS3 : Schema := ⟨[("qpos0", "int")], [("qvel", "int")]⟩

/-- The repository's own `_TYPE_ISSUE_CODE` test kernel:
`def test_type_issue(qpos0: str, qvel): ...`. -/
def exNode3 : FunctionDef :=
  ⟨"test_type_issue", 5, [.name "kernel" 1],
   ⟨[⟨"qpos0", some (.name "str" 5)⟩, ⟨"qvel", none⟩], [], [], [], none, none⟩, []⟩

/-- A kernel whose FIRST parameter has no annotation. -/
def exNode3b : FunctionDef :=
  ⟨"t3b", 2, [.name "kernel" 1], ⟨[⟨"x", none⟩], [], [], [], none, none⟩, []⟩

/-- A kernel with a `*args` catch-all (and no other flaw): it yields exactly
one `VarArgsIssue`. -/
def exNode3c : FunctionDef :=
  ⟨"t3c", 8, [.name "kernel" 1], ⟨[], [], [], [], some "args", none⟩, []⟩

/-- A function decorated with the attribute access `wp.kernel` — not a bare
`kernel` identifier. -/
def exNode4a : FunctionDef :=
  ⟨"f4a", 2, [.attrE (.name "wp" 2) "kernel" 2], ⟨[], [], [], [], none, none⟩, []⟩

/-- A kernel whose parameter is annotated with the subscript `List[int]`, and
which also declares `*args`. -/
def exNode6 : FunctionDef :=
  ⟨"k6", 2, [.name "kernel" 1],
   ⟨[⟨"x", some (.subscriptE (.name "List" 3) 3)⟩], [], [], [], some "args", none⟩, []⟩

/-- A kernel declaring one keyword-only parameter with NO default: its
`kw_defaults` list is the placeholder list `[None]`. -/
def exNode8 : FunctionDef :=
  ⟨"k8", 3, [.name "kernel" 1],
   ⟨[], [⟨"x", some (.name "int" 3)⟩], [], [none], none, none⟩, []⟩

/-- Schema whose Data field `act` is a prefix of its Data field `act_dot`. -/
def exS9 : Schema := ⟨[], [("act", "array"), ("act_dot", "array")]⟩

/-- A kernel parameter `act_dot_foo` matching both `act_` and `act_dot_`. -/
def exNode9 : FunctionDef :=
  ⟨"k9", 2, [.name "kernel" 1],
   ⟨[⟨"act_dot_foo", some (.name "array" 3)⟩], [], [], [], none, none⟩, []⟩

/-- Source lines of a kernel whose Model parameter `qpos0` is declared on the
0-based line index 2 with no `# Model` comment above it. -/
def exLines10 : List String := ["@kernel", "def k10(", "  qpos0: array2d,", "):"]

/-- The kernel of `exLines10` (the parser reports `lineno` 2, 1-based, for
the `def` on 0-based line index 1). -/
def exNode10 : FunctionDef :=
  ⟨"k10", 2, [.name "kernel" 1],
   ⟨[⟨"qpos0", some (.name "array2d" 3)⟩], [], [], [], none, none⟩, []⟩

/-- A schema in which the same name `a` is both a Model and a Data field. -/
def exS7 : Schema := ⟨[("a", "t")], [("a", "t")]⟩

/-- Schema for the C7 witness: Model field `qpos0`, Data field `qvel`. -/
def exS7b : Schema := ⟨[("qpos0", "t")], [("qvel", "t")]⟩

/-- The linenos of the expressions handed to the write-target checker — the
only linenos a `WriteToReadOnlyFieldIssue` can carry. -/
def targetLinenos (node : FunctionDef) : List Nat :=
  (writeEventExprs node).map Expr.lineno

/-- The invariant carried by the recorded first-of-category parameters of the
comment check: the recorded line is the 0-based index of a source line
containing the parameter's declaration text `name:`. -/
def catSound (lines : List String) (c : CatInfo) : Prop :=
  ∃ line, lines.get? c.pline = some line ∧ strContains line (c.pname ++ ":") = true

/-- Slot form of `catSound` for an `Option CatInfo`. -/
def slotSound (lines : List String) : Option CatInfo → Prop
  | none => True
  | some c => catSound lines c

/-- The line-number convention of one emitted issue: a `MissingCommentIssue`
carries the 0-BASED index of the source line on which the parameter's
declaration text was found (`lines.get?` is 0-based indexing); every other
variant carries a `lineno` taken verbatim from the parser's (1-based) node
attributes — the kernel's `def` line for all per-kernel checks, or the written
target's line for a `WriteToReadOnlyFieldIssue`. -/
def linenoProp (lines : List String) (node : FunctionDef) (i : Issue) : Prop :=
  (∀ pl kn pn pt mk, i = Issue.missingComment pl kn pn pt mk →
    kn = node.name ∧ ∃ line, lines.get? pl = some line ∧
      strContains line (pn ++ ":") = true) ∧
  (i.isMissingComment = false → i.isWriteToReadOnly = false →
    Issue.lineno i = node.lineno) ∧
  (i.isWriteToReadOnly = true → Issue.lineno i ∈ targetLinenos node)

/-! ## Helper lemmas -/

theorem stringDataEq {a b : String} (h : a.data = b.data) : a = b := by
  cases a; cases b; simp only at h; rw [h]

theorem strAppendData (a b : String) : (a ++ b).data = a.data ++ b.data := rfl

theorem strEndsWith_iff {s suf : String} : strEndsWith s suf = true ↔ suf.data <:+ s.data := by
  simp [strEndsWith, List.isSuffixOf]

theorem containsListIffMem {l : List String} {a : String} : l.contains a = true ↔ a ∈ l := by
  simp [List.contains]

theorem strDropRight_append_in {n : String} (h : strEndsWith n "_in" = true) :
    strDropRight n 3 ++ "_in" = n := by
  rw [strEndsWith_iff] at h
  obtain ⟨t, ht⟩ := h
  apply stringDataEq
  rw [strAppendData]
  have hd : "_in".data = ['_', 'i', 'n'] := rfl
  rw [hd] at ht ⊢
  have hlen : n.data.length - 3 = t.length := by
    rw [← ht]; simp
  show (n.data.take (n.data.length - 3)) ++ _ = _
  rw [hlen, ← ht, List.take_left]

theorem strDropRight_append_out {n : String} (h : strEndsWith n "_out" = true) :
    strDropRight n 4 ++ "_out" = n := by
  rw [strEndsWith_iff] at h
  obtain ⟨t, ht⟩ := h
  apply stringDataEq
  rw [strAppendData]
  have hd : "_out".data = ['_', 'o', 'u', 't'] := rfl
  rw [hd] at ht ⊢
  have hlen : n.data.length - 4 = t.length := by
    rw [← ht]; simp
  show (n.data.take (n.data.length - 4)) ++ _ = _
  rw [hlen, ← ht, List.take_left]

theorem not_endsWith_in_and_out {n : String}
    (h1 : strEndsWith n "_in" = true) (h2 : strEndsWith n "_out" = true) : False := by
  rw [strEndsWith_iff] at h1 h2
  obtain ⟨t1, ht1⟩ := h1
  obtain ⟨t2, ht2⟩ := h2
  have hd1 : "_in".data = '_' :: ['i', 'n'] := rfl
  have hd2 : "_out".data = '_' :: ['o', 'u', 't'] := rfl
  rw [hd1] at ht1; rw [hd2] at ht2
  have g1 : n.data.getLast? = some 'n' := by
    rw [← ht1]
    cases h : (('_' : Char) :: ['i', 'n']).getLast? with
    | none => simp at h
    | some x =>
      simp at h
      rw [List.getLast?_append, h]
      simp
  have g2 : n.data.getLast? = some 't' := by
    rw [← ht2]
    cases h : (('_' : Char) :: ['o', 'u', 't']).getLast? with
    | none => simp at h
    | some x =>
      simp at h
      rw [List.getLast?_append, h]
      simp
  rw [g1] at g2
  simp at g2

/-! ### Dedup-set lemmas -/

theorem mem_dedupByRender_of_mem_acc {i : Issue} :
    ∀ (l acc : List Issue), i ∈ acc → i ∈ dedupByRender acc l := by
  intro l
  induction l with
  | nil => intro acc h; simpa [dedupByRender] using h
  | cons x rest ih =>
    intro acc h
    simp only [dedupByRender]
    apply ih
    unfold addByRender
    split
    · exact h
    · exact List.mem_append_left _ h

theorem dedupByRender_subset {i : Issue} :
    ∀ (l acc : List Issue), i ∈ dedupByRender acc l → i ∈ acc ∨ i ∈ l := by
  intro l
  induction l with
  | nil => intro acc h; simp [dedupByRender] at h; exact Or.inl h
  | cons x rest ih =>
    intro acc h
    simp only [dedupByRender] at h
    rcases ih (addByRender acc x) h with hacc | hrest
    · unfold addByRender at hacc
      split at hacc
      · exact Or.inl hacc
      · rcases List.mem_append.mp hacc with h1 | h2
        · exact Or.inl h1
        · simp at h2; subst h2; exact Or.inr (List.mem_cons_self _ _)
    · exact Or.inr (List.mem_cons_of_mem _ hrest)

theorem dedupByRender_covers {i : Issue} :
    ∀ (l acc : List Issue), i ∈ l →
      ∃ j ∈ dedupByRender acc l, renderWrite j = renderWrite i := by
  intro l
  induction l with
  | nil => intro acc h; simp at h
  | cons x rest ih =>
    intro acc h
    rcases List.mem_cons.mp h with rfl | hrest
    · by_cases hmatch : acc.any (fun j => renderWrite j == renderWrite i) = true
      · rw [List.any_eq_true] at hmatch
        obtain ⟨j, hj, hjr⟩ := hmatch
        refine ⟨j, ?_, by simpa using hjr⟩
        simp only [dedupByRender]
        apply mem_dedupByRender_of_mem_acc
        unfold addByRender
        split
        · exact hj
        · exact List.mem_append_left _ hj
      · refine ⟨i, ?_, rfl⟩
        simp only [dedupByRender]
        apply mem_dedupByRender_of_mem_acc
        unfold addByRender
        split
        · rename_i hc; exact absurd hc hmatch
        · exact List.mem_append_right _ (by simp)
    · exact ih (addByRender acc x) hrest

theorem dedupByRender_pairwise :
    ∀ (l acc : List Issue),
      acc.Pairwise (fun a b => renderWrite a ≠ renderWrite b) →
      (dedupByRender acc l).Pairwise (fun a b => renderWrite a ≠ renderWrite b) := by
  intro l
  induction l with
  | nil => intro acc h; simpa [dedupByRender] using h
  | cons x rest ih =>
    intro acc h
    simp only [dedupByRender]
    apply ih
    unfold addByRender
    split
    · exact h
    · rename_i hnot
      rw [List.pairwise_append]
      refine ⟨h, by simp, ?_⟩
      intro a ha b hb
      simp at hb; subst hb
      intro hcontra
      apply hnot
      rw [List.any_eq_true]
      exact ⟨a, ha, by simp [hcontra]⟩

/-! ### Soundness of the source-line searches -/

theorem findContainAux_sound {needle : String} :
    ∀ (ls : List String) (i j : Nat), findContainAux needle ls i = some j →
      ∃ k, j = i + k ∧ ∃ line, ls.get? k = some line ∧ strContains line needle = true := by
  intro ls
  induction ls with
  | nil => intro i j h; simp [findContainAux] at h
  | cons l rest ih =>
    intro i j h
    unfold findContainAux at h
    split at h
    · rename_i hc
      refine ⟨0, by simpa using h.symm, l, rfl, hc⟩
    · obtain ⟨k, hk, line, hline, hcl⟩ := ih (i + 1) j h
      refine ⟨k + 1, by omega, line, by simpa using hline, hcl⟩

theorem paramLineOf_sound {lines : List String} {bodyStart : Nat} {pname : String} {pl : Nat}
    (h : paramLineOf lines bodyStart pname = some pl) :
    ∃ line, lines.get? pl = some line ∧ strContains line (pname ++ ":") = true := by
  unfold paramLineOf at h
  obtain ⟨k, hk, line, hline, hcl⟩ := findContainAux_sound _ _ _ h
  refine ⟨line, ?_, hcl⟩
  rw [hk]
  rw [List.get?_eq_getElem?] at hline ⊢
  rwa [List.getElem?_drop] at hline

theorem ccUpdate_sound {s : Schema} {lines : List String} {p : Param} {pt : Option String}
    {pl : Nat} {m r i o : Option CatInfo}
    (hm : slotSound lines m) (hr : slotSound lines r) (hi : slotSound lines i)
    (ho : slotSound lines o)
    (hpl : ∀ mk, catSound lines ⟨p.arg, pt, pl, mk⟩) :
    slotSound lines (ccUpdate s p pt pl m r i o).1 ∧
    slotSound lines (ccUpdate s p pt pl m r i o).2.1 ∧
    slotSound lines (ccUpdate s p pt pl m r i o).2.2.1 ∧
    slotSound lines (ccUpdate s p pt pl m r i o).2.2.2 := by
  unfold ccUpdate
  split
  · exact ⟨hpl _, hr, hi, ho⟩
  · split
    · exact ⟨hm, hr, hi, ho⟩
    · split
      · exact ⟨hm, hpl _, hi, ho⟩
      · split
        · exact ⟨hm, hr, hpl _, ho⟩
        · split
          · exact ⟨hm, hr, hi, hpl _⟩
          · exact ⟨hm, hr, hi, ho⟩

theorem ccScan_sound {s : Schema} {lines : List String} {bodyStart : Nat} :
    ∀ (ps : List Param) (m r i o : Option CatInfo)
      (res : Option CatInfo × Option CatInfo × Option CatInfo × Option CatInfo),
      slotSound lines m → slotSound lines r → slotSound lines i → slotSound lines o →
      ccScan s lines bodyStart ps m r i o = .ok res →
      slotSound lines res.1 ∧ slotSound lines res.2.1 ∧ slotSound lines res.2.2.1 ∧
        slotSound lines res.2.2.2 := by
  intro ps
  induction ps with
  | nil =>
    intro m r i o res hm hr hi ho h
    unfold ccScan at h
    injection h with h
    subst h
    exact ⟨hm, hr, hi, ho⟩
  | cons p rest ih =>
    intro m r i o res hm hr hi ho h
    unfold ccScan at h
    rcases hpt : commentParamType p with _ | pt
    · rw [hpt] at h; simp at h
    · rw [hpt] at h
      simp only at h
      rcases hpl : paramLineOf lines bodyStart p.arg with _ | pl
      · rw [hpl] at h
        exact ih m r i o res hm hr hi ho h
      · rw [hpl] at h
        simp only at h
        have hcat : ∀ mk, catSound lines ⟨p.arg, pt, pl, mk⟩ := by
          intro mk
          obtain ⟨line, hline, hcl⟩ := paramLineOf_sound hpl
          exact ⟨line, hline, hcl⟩
        obtain ⟨u1, u2, u3, u4⟩ := ccUpdate_sound hm hr hi ho hcat (s := s)
        exact ih _ _ _ _ res u1 u2 u3 u4 h

theorem mem_insertByLine {x c : CatInfo} :
    ∀ (l : List CatInfo), x ∈ insertByLine c l ↔ x = c ∨ x ∈ l := by
  intro l
  induction l with
  | nil => simp [insertByLine]
  | cons d ds ih =>
    unfold insertByLine
    split
    · simp
    · simp only [List.mem_cons, ih]
      tauto

theorem mem_sortByLine {x : CatInfo} :
    ∀ (l : List CatInfo), x ∈ sortByLine l ↔ x ∈ l := by
  intro l
  induction l with
  | nil => simp [sortByLine]
  | cons c cs ih => simp [sortByLine, mem_insertByLine, ih]

theorem emitMissing_mem {lines : List String} {kname : String} {cats : List CatInfo} {i : Issue}
    (h : i ∈ emitMissing lines kname cats) :
    ∃ c ∈ cats, i = Issue.missingComment c.pline kname c.pname c.ptype c.marker := by
  unfold emitMissing at h
  rw [List.mem_filterMap] at h
  obtain ⟨c, hc, hfc⟩ := h
  refine ⟨c, hc, ?_⟩
  repeat' split at hfc
  all_goals first
    | exact Option.noConfusion hfc
    | (injection hfc with h2; exact h2.symm)

theorem checkParameterComments_mem {s : Schema} {lines : List String} {node : FunctionDef}
    {res : List Issue}
    (h : checkParameterComments s lines node = .ok res ∨
         checkParameterComments s lines node = .error res) :
    ∀ i ∈ res, ∃ pl pn pt mk, i = Issue.missingComment pl node.name pn pt mk ∧
      ∃ line, lines.get? pl = some line ∧ strContains line (pn ++ ":") = true := by
  intro i hi
  unfold checkParameterComments at h
  rcases hscan : ccScan s lines (funcBodyStart lines node.lineno) node.args.args
      none none none none with _ | quad
  · rw [hscan] at h
    rcases h with h | h
    · simp at h
    · simp at h; subst h; simp at hi
  · rw [hscan] at h
    obtain ⟨m, r, ii, o⟩ := quad
    rcases h with h | h
    · simp only at h
      injection h with h
      subst h
      obtain ⟨c, hc, hci⟩ := emitMissing_mem hi
      rw [mem_sortByLine] at hc
      have hslots := ccScan_sound node.args.args none none none none (m, r, ii, o)
        trivial trivial trivial trivial hscan
      obtain ⟨h1, h2, h3, h4⟩ := hslots
      have h1' : slotSound lines m := h1
      have h2' : slotSound lines r := h2
      have h3' : slotSound lines ii := h3
      have h4' : slotSound lines o := h4
      have hcsound : catSound lines c := by
        rw [List.mem_filterMap] at hc
        obtain ⟨oc, hoc, hid⟩ := hc
        simp only [id_eq] at hid
        subst hid
        simp only [List.mem_cons, List.not_mem_nil, or_false] at hoc
        rcases hoc with h' | h' | h' | h'
        · rw [← h'] at h1'; exact h1'
        · rw [← h'] at h2'; exact h2'
        · rw [← h'] at h3'; exact h3'
        · rw [← h'] at h4'; exact h4'
      obtain ⟨line, hline, hcl⟩ := hcsound
      exact ⟨c.pline, c.pname, c.ptype, c.marker, hci, line, hline, hcl⟩
    · simp at h

/-! ### Shape of the issues each check can emit -/

theorem shapeIssues_mem {node : FunctionDef} :
    ∀ i ∈ shapeIssues node,
      Issue.lineno i = node.lineno ∧ i.isMissingComment = false ∧
        i.isWriteToReadOnly = false := by
  intro i hi
  unfold shapeIssues at hi
  rcases List.mem_append.mp hi with h | h
  · rcases List.mem_append.mp h with h | h
    · split at h
      · simp at h; subst h; exact ⟨rfl, rfl, rfl⟩
      · simp at h
    · split at h
      · simp at h; subst h; exact ⟨rfl, rfl, rfl⟩
      · simp at h
  · split at h
    · simp at h; subst h; exact ⟨rfl, rfl, rfl⟩
    · simp at h

theorem cptLoop_mem {lineno : Nat} {kname : String} :
    ∀ (ps : List Param) (ptype : Option String) (acc res : List Issue),
      (∀ i ∈ acc, ∃ pn pt, i = Issue.typeIssue lineno kname pn pt expectedTypesStr) →
      (cptLoop lineno kname ps ptype acc = .ok res ∨
        cptLoop lineno kname ps ptype acc = .error res) →
      ∀ i ∈ res, ∃ pn pt, i = Issue.typeIssue lineno kname pn pt expectedTypesStr := by
  intro ps
  induction ps with
  | nil =>
    intro ptype acc res hacc h
    rcases h with h | h
    · unfold cptLoop at h; injection h with h; subst h; exact hacc
    · unfold cptLoop at h; exact Except.noConfusion h
  | cons p rest ih =>
    intro ptype acc res hacc h
    have hext : ∀ (t : String),
        ∀ i ∈ acc ++ [Issue.typeIssue lineno kname p.arg t expectedTypesStr],
          ∃ pn pt, i = Issue.typeIssue lineno kname pn pt expectedTypesStr := by
      intro t i hi
      rcases List.mem_append.mp hi with h' | h'
      · exact hacc i h'
      · simp at h'; subst h'; exact ⟨p.arg, t, rfl⟩
    unfold cptLoop at h
    rcases hann : p.ann with _ | e
    · rw [hann] at h
      simp only at h
      rcases hpt : ptype with _ | t
    
      · rw [hpt] at h
        rcases h with h | h
        · exact Except.noConfusion h
        · injection h with h; subst h; exact hext ""
      · rw [hpt] at h
        simp only at h
        split at h
        · exact ih (some t) _ res (hext "") h
        · exact ih (some t) _ res (by
            intro i hi
            rcases List.mem_append.mp hi with h' | h'
            · exact hext "" i h'
            · simp at h'; subst h'; exact ⟨p.arg, t, rfl⟩) h
    · rw [hann] at h
      simp only at h
      rcases hex : extractParamTypeName e with _ | t
      · rw [hex] at h
        rcases h with h | h
        · exact Except.noConfusion h
        · injection h with h; subst h; exact hacc
      · rw [hex] at h
        simp only at h
        split at h
        · exact ih (some t) _ res hacc h
        · exact ih (some t) _ res (by
            intro i hi
            rcases List.mem_append.mp hi with h' | h'
            · exact hacc i h'
            · simp at h'; subst h'; exact ⟨p.arg, t, rfl⟩) h

theorem checkParameterTypes_mem {node : FunctionDef} {res : List Issue}
    (h : checkParameterTypes node = .ok res ∨ checkParameterTypes node = .error res) :
    ∀ i ∈ res, ∃ pn pt, i = Issue.typeIssue node.lineno node.name pn pt expectedTypesStr :=
  cptLoop_mem node.args.args none [] res (by simp) h

theorem cftaLoop_mem {s : Schema} {lineno : Nat} {kname : String} :
    ∀ (ps : List Param) (acc res : List Issue),
      (∀ i ∈ acc, ∃ pn a e fs, i = Issue.typeMismatch lineno kname pn a e fs) →
      (cftaLoop s lineno kname ps acc = .ok res ∨
        cftaLoop s lineno kname ps acc = .error res) →
      ∀ i ∈ res, ∃ pn a e fs, i = Issue.typeMismatch lineno kname pn a e fs := by
  intro ps
  induction ps with
  | nil =>
    intro acc res hacc h
    rcases h with h | h
    · unfold cftaLoop at h; injection h with h; subst h; exact hacc
    · unfold cftaLoop at h; exact Except.noConfusion h
  | cons p rest ih =>
    intro acc res hacc h
    unfold cftaLoop at h
    have hstep : ∀ (pn a e fs : String),
        ∀ i ∈ acc ++ [Issue.typeMismatch lineno kname pn a e fs],
          ∃ pn' a' e' fs', i = Issue.typeMismatch lineno kname pn' a' e' fs' := by
      intro pn a e fs i hi
      rcases List.mem_append.mp hi with h' | h'
      · exact hacc i h'
      · simp at h'; subst h'; exact ⟨pn, a, e, fs, rfl⟩
    split at h
    · rcases hlk : lookupStr s.modelFields p.arg with _ | expt
      · rw [hlk] at h
        rcases h with h | h
        · exact Except.noConfusion h
        · injection h with h; subst h; exact hacc
      · rw [hlk] at h
        simp only at h
        rcases hann : p.ann with _ | e
        · rw [hann] at h; exact ih _ res hacc h
        · rw [hann] at h
          simp only at h
          split at h
          · exact ih _ res hacc h
          · exact ih _ res (hstep _ _ _ _) h
    · split at h
      · rcases hlk : lookupStr s.dataFields (canonicalizeDataFieldName p.arg) with _ | expt
        · rw [hlk] at h
          rcases h with h | h
          · exact Except.noConfusion h
          · injection h with h; subst h; exact hacc
        · rw [hlk] at h
          simp only at h
          rcases hann : p.ann with _ | e
          · rw [hann] at h; exact ih _ res hacc h
          · rw [hann] at h
            simp only at h
            split at h
            · exact ih _ res hacc h
            · exact ih _ res (hstep _ _ _ _) h
      · exact ih _ res hacc h

theorem checkFieldTypeAnnotations_mem {s : Schema} {node : FunctionDef} {res : List Issue}
    (h : checkFieldTypeAnnotations s node = .ok res ∨
         checkFieldTypeAnnotations s node = .error res) :
    ∀ i ∈ res, ∃ pn a e fs, i = Issue.typeMismatch node.lineno node.name pn a e fs :=
  cftaLoop_mem node.args.args [] res (by simp) h

theorem checkModelFieldSuffixes_mem {s : Schema} {node : FunctionDef} :
    ∀ i ∈ checkModelFieldSuffixes s node,
      ∃ pn sfx, i = Issue.modelFieldSuffix node.lineno node.name pn sfx := by
  intro i hi
  unfold checkModelFieldSuffixes at hi
  rw [List.mem_flatMap] at hi
  obtain ⟨p, _, hp⟩ := hi
  rcases List.mem_append.mp hp with h | h
  · split at h
    · simp at h; subst h; exact ⟨p.arg, "_in", rfl⟩
    · simp at h
  · split at h
    · simp at h; subst h; exact ⟨p.arg, "_out", rfl⟩
    · simp at h

theorem checkDataFieldSuffixes_mem {s : Schema} {node : FunctionDef} :
    ∀ i ∈ checkDataFieldSuffixes s node,
      ∃ pn msg, i = Issue.dataFieldSuffix node.lineno node.name pn msg := by
  intro i hi
  unfold checkDataFieldSuffixes at hi
  rw [List.mem_flatMap] at hi
  obtain ⟨p, _, hp⟩ := hi
  unfold dataSuffixIssuesForParam at hp
  split at hp
  · simp at hp
  · rw [List.mem_filterMap] at hp
    obtain ⟨f, _, hf⟩ := hp
    split at hf
    · injection hf with hf; subst hf; exact ⟨p.arg, invalidSuffixMsg, rfl⟩
    · exact Option.noConfusion hf

theorem checkModelDataInTheMiddle_mem {s : Schema} {node : FunctionDef} :
    ∀ i ∈ checkModelDataInTheMiddle s node,
      ∃ it dt, i = Issue.argPosition node.lineno node.name it dt := by
  intro i hi
  unfold checkModelDataInTheMiddle at hi
  simp only [] at hi
  split at hi
  · simp at hi
  · split at hi
    · rw [List.mem_filterMap] at hi
      obtain ⟨k, _, hk⟩ := hi
      split at hk
      · injection hk with hk; subst hk; exact ⟨_, _, rfl⟩
      · exact Option.noConfusion hk
    · simp at hi

theorem checkModelFieldsBeforeDataFields_mem {s : Schema} {node : FunctionDef} :
    ∀ i ∈ checkModelFieldsBeforeDataFields s node,
      ∃ it dt, i = Issue.argPosition node.lineno node.name it dt := by
  intro i hi
  unfold checkModelFieldsBeforeDataFields at hi
  simp only [] at hi
  split at hi
  · split at hi
    · simp at hi; subst hi; exact ⟨_, _, rfl⟩
    · simp at hi
  · simp at hi

theorem checkDataFieldsOrder_mem {s : Schema} {node : FunctionDef} :
    ∀ i ∈ checkDataFieldsOrder s node,
      ∃ it dt, i = Issue.argPosition node.lineno node.name it dt := by
  intro i hi
  unfold checkDataFieldsOrder at hi
  simp only [] at hi
  rcases List.mem_append.mp hi with h | h
  · rcases List.mem_append.mp h with h | h
    · split at h
      · split at h
        · simp at h; subst h; exact ⟨_, _, rfl⟩
        · simp at h
      · simp at h
    · split at h
      · split at h
        · simp at h; subst h; exact ⟨_, _, rfl⟩
        · simp at h
      · simp at h
  · split at h
    · split at h
      · simp at h; subst h; exact ⟨_, _, rfl⟩
      · simp at h
    · simp at h

theorem rawWriteIssues_mem {s : Schema} {node : FunctionDef} :
    ∀ i ∈ rawWriteIssues s node,
      ∃ t ∈ writeEventExprs node, ∃ nm ty,
        i = Issue.writeToReadOnly t.lineno node.name nm ty := by
  intro i hi
  unfold rawWriteIssues at hi
  rw [List.mem_filterMap] at hi
  obtain ⟨t, ht, hf⟩ := hi
  rcases hrn : resolveTargetName t with _ | nm
  · rw [hrn] at hf; exact Option.noConfusion hf
  · rw [hrn] at hf
    simp only at hf
    rcases hro : readonlyTypeOf s node.args.args nm with _ | ty
    · rw [hro] at hf; exact Option.noConfusion hf
    · rw [hro] at hf
      simp only at hf
      injection hf with hf
      exact ⟨t, ht, nm, ty, hf.symm⟩

theorem checkNoWrites_mem {s : Schema} {node : FunctionDef} :
    ∀ i ∈ checkNoWritesToReadonlyFields s node,
      ∃ t ∈ writeEventExprs node, ∃ nm ty,
        i = Issue.writeToReadOnly t.lineno node.name nm ty := by
  intro i hi
  unfold checkNoWritesToReadonlyFields at hi
  rcases dedupByRender_subset _ _ hi with h | h
  · simp at h
  · exact rawWriteIssues_mem i h

theorem plainProp {lines : List String} {node : FunctionDef} {i : Issue}
    (hl : Issue.lineno i = node.lineno) (hm : i.isMissingComment = false)
    (hw : i.isWriteToReadOnly = false) : linenoProp lines node i := by
  refine ⟨?_, fun _ _ => hl, ?_⟩
  · intro pl kn pn pt mk heq
    rw [heq] at hm
    exact absurd hm (by simp [Issue.isMissingComment])
  · intro hwt
    rw [hw] at hwt
    exact Bool.noConfusion hwt

theorem commentProp {lines : List String} {node : FunctionDef} {i : Issue}
    {pl : Nat} {pn : String} {pt : Option String} {mk : String}
    (heq : i = Issue.missingComment pl node.name pn pt mk)
    (hsnd : ∃ line, lines.get? pl = some line ∧ strContains line (pn ++ ":") = true) :
    linenoProp lines node i := by
  subst heq
  refine ⟨?_, ?_, ?_⟩
  · intro pl' kn' pn' pt' mk' heq'
    injection heq' with h1 h2 h3 h4 h5
    subst h1; subst h2; subst h3
    exact ⟨rfl, hsnd⟩
  · intro hm; exact absurd hm (by simp [Issue.isMissingComment])
  · intro hw; exact absurd hw (by simp [Issue.isWriteToReadOnly])

theorem writeProp {lines : List String} {node : FunctionDef} {i : Issue}
    (hex : ∃ t ∈ writeEventExprs node, ∃ nm ty,
      i = Issue.writeToReadOnly t.lineno node.name nm ty) :
    linenoProp lines node i := by
  obtain ⟨t, ht, nm, ty, heq⟩ := hex
  subst heq
  refine ⟨?_, ?_, ?_⟩
  · intro pl' kn' pn' pt' mk' heq'
    exact Issue.noConfusion heq'
  · intro _ hw; exact absurd hw (by simp [Issue.isWriteToReadOnly])
  · intro _
    unfold targetLinenos
    exact List.mem_map.mpr ⟨t, ht, rfl⟩

theorem processKernel_linenoProp {s : Schema} {lines : List String} {node : FunctionDef}
    {out : List Issue}
    (h : processKernel s lines node = .ok out ∨ processKernel s lines node = .error out) :
    ∀ i ∈ out, linenoProp lines node i := by
  unfold processKernel at h
  rcases hT : checkParameterTypes node with pT | t1
  · rw [hT] at h
    simp only at h
    have hout : out = shapeIssues node ++ pT := by
      rcases h with h | h
      · exact Except.noConfusion h
      · injection h with h; exact h.symm
    subst hout
    intro i hi
    rcases List.mem_append.mp hi with hseg | hseg
    · obtain ⟨hl, hm, hw⟩ := shapeIssues_mem i hseg
      exact plainProp hl hm hw
    · obtain ⟨pn, pt, rfl⟩ := checkParameterTypes_mem (Or.inr hT) i hseg
      exact plainProp rfl rfl rfl
  · rw [hT] at h
    simp only at h
    rcases hF : checkFieldTypeAnnotations s node with pF | t2
    · rw [hF] at h
      simp only at h
      have hout : out = shapeIssues node ++ t1 ++ pF := by
        rcases h with h | h
        · exact Except.noConfusion h
        · injection h with h; exact h.symm
      subst hout
      intro i hi
      rcases List.mem_append.mp hi with hseg | hseg
      · rcases List.mem_append.mp hseg with hs | hs
        · obtain ⟨hl, hm, hw⟩ := shapeIssues_mem i hs
          exact plainProp hl hm hw
        · obtain ⟨pn, pt, rfl⟩ := checkParameterTypes_mem (Or.inl hT) i hs
          exact plainProp rfl rfl rfl
      · obtain ⟨pn, a, e, fs, rfl⟩ := checkFieldTypeAnnotations_mem (Or.inr hF) i hseg
        exact plainProp rfl rfl rfl
    · rw [hF] at h
      simp only at h
      rcases hC : checkParameterComments s lines node with pC | comments
      · rw [hC] at h
        simp only at h
        have hout : out = shapeIssues node ++ t1 ++ t2
            ++ (checkModelFieldSuffixes s node ++ checkDataFieldSuffixes s node)
            ++ (checkModelDataInTheMiddle s node ++ checkModelFieldsBeforeDataFields s node
                ++ checkDataFieldsOrder s node) ++ pC := by
          rcases h with h | h
          · exact Except.noConfusion h
          · injection h with h; exact h.symm
        subst hout
        intro i hi
        rcases List.mem_append.mp hi with hseg | hseg
        · rcases List.mem_append.mp hseg with hs | hs
          · rcases List.mem_append.mp hs with hs2 | hs2
            · rcases List.mem_append.mp hs2 with hs3 | hs3
              · rcases List.mem_append.mp hs3 with hs4 | hs4
                · obtain ⟨hl, hm, hw⟩ := shapeIssues_mem i hs4
                  exact plainProp hl hm hw
                · obtain ⟨pn, pt, rfl⟩ := checkParameterTypes_mem (Or.inl hT) i hs4
                  exact plainProp rfl rfl rfl
              · obtain ⟨pn, a, e, fs, rfl⟩ := checkFieldTypeAnnotations_mem (Or.inl hF) i hs3
                exact plainProp rfl rfl rfl
            · rcases List.mem_append.mp hs2 with hs3 | hs3
              · obtain ⟨pn, sfx, rfl⟩ := checkModelFieldSuffixes_mem i hs3
                exact plainProp rfl rfl rfl
              · obtain ⟨pn, msg, rfl⟩ := checkDataFieldSuffixes_mem i hs3
                exact plainProp rfl rfl rfl
          · rcases List.mem_append.mp hs with hs2 | hs2
            · rcases List.mem_append.mp hs2 with hs3 | hs3
              · obtain ⟨it, dt, rfl⟩ := checkModelDataInTheMiddle_mem i hs3
                exact plainProp rfl rfl rfl
              · obtain ⟨it, dt, rfl⟩ := checkModelFieldsBeforeDataFields_mem i hs3
                exact plainProp rfl rfl rfl
            · obtain ⟨it, dt, rfl⟩ := checkDataFieldsOrder_mem i hs2
              exact plainProp rfl rfl rfl
        · obtain ⟨pl, pn, pt, mk, heq, hsnd⟩ :=
            checkParameterComments_mem (Or.inr hC) i hseg
          exact commentProp heq hsnd
      · rw [hC] at h
        simp only at h
        have hout : out = shapeIssues node ++ t1 ++ t2
            ++ (checkModelFieldSuffixes s node ++ checkDataFieldSuffixes s node)
            ++ (checkModelDataInTheMiddle s node ++ checkModelFieldsBeforeDataFields s node
                ++ checkDataFieldsOrder s node) ++ comments
            ++ checkNoWritesToReadonlyFields s node := by
          rcases h with h | h
          · injection h with h; exact h.symm
          · exact Except.noConfusion h
        subst hout
        intro i hi
        rcases List.mem_append.mp hi with hseg | hseg
        · rcases List.mem_append.mp hseg with hs | hs
          · rcases List.mem_append.mp hs with hs2 | hs2
            · rcases List.mem_append.mp hs2 with hs3 | hs3
              · rcases List.mem_append.mp hs3 with hs4 | hs4
                · rcases List.mem_append.mp hs4 with hs5 | hs5
                  · obtain ⟨hl, hm, hw⟩ := shapeIssues_mem i hs5
                    exact plainProp hl hm hw
                  · obtain ⟨pn, pt, rfl⟩ := checkParameterTypes_mem (Or.inl hT) i hs5
                    exact plainProp rfl rfl rfl
                · obtain ⟨pn, a, e, fs, rfl⟩ := checkFieldTypeAnnotations_mem (Or.inl hF) i hs4
                  exact plainProp rfl rfl rfl
              · rcases List.mem_append.mp hs3 with hs4 | hs4
                · obtain ⟨pn, sfx, rfl⟩ := checkModelFieldSuffixes_mem i hs4
                  exact plainProp rfl rfl rfl
                · obtain ⟨pn, msg, rfl⟩ := checkDataFieldSuffixes_mem i hs4
                  exact plainProp rfl rfl rfl
            · rcases List.mem_append.mp hs2 with hs3 | hs3
              · rcases List.mem_append.mp hs3 with hs4 | hs4
                · obtain ⟨it, dt, rfl⟩ := checkModelDataInTheMiddle_mem i hs4
                  exact plainProp rfl rfl rfl
                · obtain ⟨it, dt, rfl⟩ := checkModelFieldsBeforeDataFields_mem i hs4
                  exact plainProp rfl rfl rfl
              · obtain ⟨it, dt, rfl⟩ := checkDataFieldsOrder_mem i hs3
                exact plainProp rfl rfl rfl
          · obtain ⟨pl, pn, pt, mk, heq, hsnd⟩ :=
              checkParameterComments_mem (Or.inl hC) i hs
            exact commentProp heq hsnd
        · exact writeProp (checkNoWrites_mem i hseg)

/-! ### Classification lemmas -/

theorem mem_expanded_of_raw {s : Schema} {n : String} (h : n ∈ rawDataNames s) :
    n ∈ expandedDataNames s := by
  unfold expandedDataNames
  exact List.mem_append_left _ (List.mem_append_left _ h)

theorem mem_expanded_of_in {s : Schema} {n : String}
    (hE : strEndsWith n "_in" = true)
    (hC : strDropRight n 3 ∈ rawDataNames s) : n ∈ expandedDataNames s := by
  unfold expandedDataNames
  apply List.mem_append_left
  apply List.mem_append_right
  rw [List.mem_map]
  exact ⟨strDropRight n 3, hC, strDropRight_append_in hE⟩

theorem mem_expanded_of_out {s : Schema} {n : String}
    (hE : strEndsWith n "_out" = true)
    (hC : strDropRight n 4 ∈ rawDataNames s) : n ∈ expandedDataNames s := by
  unfold expandedDataNames
  apply List.mem_append_right
  rw [List.mem_map]
  exact ⟨strDropRight n 4, hC, strDropRight_append_out hE⟩

theorem classCount_of_disjoint {s : Schema} {n : String}
    (hdisj : ∀ x ∈ modelNames s, x ∉ expandedDataNames s) :
    classCount s n = 1 := by
  by_cases hM : isModelClass s n = true
  · have hnM : n ∈ modelNames s := containsListIffMem.mp hM
    have hDR : isDataRegularClass s n = false := by
      unfold isDataRegularClass
      cases hC : (rawDataNames s).contains n
      · simp
      · exact absurd (mem_expanded_of_raw (containsListIffMem.mp hC)) (hdisj n hnM)
    have hDI : isDataInClass s n = false := by
      unfold isDataInClass
      cases hE : strEndsWith n "_in"
      · simp
      · cases hC : (rawDataNames s).contains (strDropRight n 3)
        · simp
        · exact absurd (mem_expanded_of_in hE (containsListIffMem.mp hC)) (hdisj n hnM)
    have hDO : isDataOutClass s n = false := by
      unfold isDataOutClass
      cases hE : strEndsWith n "_out"
      · simp
      · cases hC : (rawDataNames s).contains (strDropRight n 4)
        · simp
        · exact absurd (mem_expanded_of_out hE (containsListIffMem.mp hC)) (hdisj n hnM)
    simp [classCount, isOtherClass, hM, hDR, hDI, hDO]
  · have hM' : isModelClass s n = false := by simpa using hM
    by_cases hDR : isDataRegularClass s n = true
    · have hparts : (n ∈ rawDataNames s ∧ isDataInClass s n = false) ∧
          isDataOutClass s n = false := by simpa [isDataRegularClass] using hDR
      have hDI := hparts.1.2
      have hDO := hparts.2
      simp [classCount, isOtherClass, hM', hDR, hDI, hDO]
    · have hDR' : isDataRegularClass s n = false := by simpa using hDR
      by_cases hDI : isDataInClass s n = true
      · have hDO : isDataOutClass s n = false := by
          cases hDO : isDataOutClass s n
          · rfl
          · exfalso
            have hE1 : strEndsWith n "_in" = true :=
              (by simpa [isDataInClass] using hDI :
                strEndsWith n "_in" = true ∧ strDropRight n 3 ∈ rawDataNames s).1
            have hE2 : strEndsWith n "_out" = true :=
              (by simpa [isDataOutClass] using hDO :
                strEndsWith n "_out" = true ∧ strDropRight n 4 ∈ rawDataNames s).1
            exact not_endsWith_in_and_out hE1 hE2
        simp [classCount, isOtherClass, hM', hDR', hDI, hDO]
      · have hDI' : isDataInClass s n = false := by simpa using hDI
        by_cases hDO : isDataOutClass s n = true
        · simp [classCount, isOtherClass, hM', hDR', hDI', hDO]
        · have hDO' : isDataOutClass s n = false := by simpa using hDO
          simp [classCount, isOtherClass, hM', hDR', hDI', hDO']

/-! ### Counting lemma for the Data-suffix check -/

theorem length_filterMap_ite {α β : Type} (pred : α → Bool) (g : α → β) :
    ∀ l : List α,
      (l.filterMap (fun x => if pred x then some (g x) else none)).length = l.countP pred := by
  intro l
  induction l with
  | nil => simp
  | cons x xs ih =>
    by_cases h : pred x = true
    · simp [List.filterMap_cons, h, List.countP_cons, ih]
    · simp [List.filterMap_cons, h, List.countP_cons, ih]

/-! ### Driver lemmas -/

theorem processKernel_starts_with_shape (s : Schema) (lines : List String) (node : FunctionDef) :
    ∃ rest, processKernel s lines node = .ok (shapeIssues node ++ rest) ∨
      processKernel s lines node = .error (shapeIssues node ++ rest) := by
  unfold processKernel
  rcases hT : checkParameterTypes node with pT | t1
  · exact ⟨pT, Or.inr (by simp)⟩
  · rcases hF : checkFieldTypeAnnotations s node with pF | t2
    · exact ⟨t1 ++ pF, Or.inr (by simp)⟩
    · rcases hC : checkParameterComments s lines node with pC | comments
      · refine ⟨t1 ++ t2 ++ (checkModelFieldSuffixes s node ++ checkDataFieldSuffixes s node)
          ++ (checkModelDataInTheMiddle s node ++ checkModelFieldsBeforeDataFields s node
            ++ checkDataFieldsOrder s node) ++ pC, Or.inr ?_⟩
        simp [List.append_assoc]
      · refine ⟨t1 ++ t2 ++ (checkModelFieldSuffixes s node ++ checkDataFieldSuffixes s node)
          ++ (checkModelDataInTheMiddle s node ++ checkModelFieldsBeforeDataFields s node
            ++ checkDataFieldsOrder s node) ++ comments
          ++ checkNoWritesToReadonlyFields s node, Or.inl ?_⟩
        simp [List.append_assoc]

theorem cpt_first_subscript_faults {node : FunctionDef} {pn : String} {e : Expr} {l : Nat}
    {ps : List Param} (hargs : node.args.args = ⟨pn, some (.subscriptE e l)⟩ :: ps) :
    checkParameterTypes node = .error [] := by
  unfold checkParameterTypes
  rw [hargs]
  unfold cptLoop
  rfl

theorem analyzeWalk_fault (s : Schema) (lines : List String) (n : FunctionDef)
    (rest : List FunctionDef) (acc p : List Issue)
    (h : processNode s lines n = .error p) :
    analyzeWalk s lines (n :: rest) acc = acc ++ p := by
  unfold analyzeWalk
  rw [h]

/-! ## The claims -/

/-- C1: the claim states that a parameter whose name minus a trailing `_out`
is a canonical Model field yields a Model-field-with-suffix issue, "for the
`_out` suffix just as for the `_in` suffix".  The code does not: line 421 of
the source strips only 3 characters (`out`) instead of 4 (`_out`), so for
`qpos0_out` it tests `"qpos0_"` against the Model fields and the `_out` branch
never fires, although the claim's premise holds (`qpos0_out` ends in `_out`
and `qpos0` is a Model field) and the `_in` branch does fire on `qpos0_in`.
This contradicts the function's own docstring and issue message ("Model
parameters should not have _in or _out suffixes"): a code bug. -/
theorem c1_out_suffix_branch_never_fires :
    (strEndsWith "qpos0_out" "_out" = true ∧
      (modelNames exS1).contains (strDropRight "qpos0_out" 4) = true) ∧
    checkModelFieldSuffixes exS1 exNode1 = [] ∧
    analyze exS1 ⟨[], .parsed ⟨[exNode1]⟩⟩ = [] ∧
    checkModelFieldSuffixes exS1 exNode1b =
      [Issue.modelFieldSuffix 2 "k1b" "qpos0_in" "_in"] := by
  decide

/-- C2 counterexample: kernel `k2` writes its read-only Model parameter
`qpos0` twice, on source lines 10 and 11; `analyze` emits TWO
Write-to-readonly issues for that single field, not the single issue the
claim promises. -/
theorem c2_counter_two_writes_two_issues :
    analyze exS1 ⟨[], .parsed ⟨[exNode2]⟩⟩ =
      [Issue.writeToReadOnly 10 "k2" "qpos0" "Model",
       Issue.writeToReadOnly 11 "k2" "qpos0" "Model"] ∧
    (analyze exS1 ⟨[], .parsed ⟨[exNode2]⟩⟩).countP Issue.isWriteToReadOnly = 2 := by
  decide

/-- C2 (amended): issues of the read-only-write check are deduplicated by
their FULLY RENDERED text, which includes the write's line number: no two
emitted issues render equally, every emitted issue is one of the raw per-write
issues, and every raw per-write issue is represented by an emitted issue with
the same rendered text.  Hence several writes to the same field are collapsed
into one issue exactly when they render identically (same line); writes to the
same read-only field on different lines yield one issue per line. -/
theorem c2_dedup_by_rendered_text (s : Schema) (node : FunctionDef) :
    (checkNoWritesToReadonlyFields s node).Pairwise
      (fun a b => renderWrite a ≠ renderWrite b) ∧
    (∀ i ∈ checkNoWritesToReadonlyFields s node, i ∈ rawWriteIssues s node) ∧
    (∀ i ∈ rawWriteIssues s node,
      ∃ j ∈ checkNoWritesToReadonlyFields s node, renderWrite j = renderWrite i) := by
  unfold checkNoWritesToReadonlyFields
  refine ⟨dedupByRender_pairwise _ [] List.Pairwise.nil, ?_, ?_⟩
  · intro i hi
    rcases dedupByRender_subset _ _ hi with h | h
    · simp at h
    · exact h
  · intro i hi
    exact dedupByRender_covers _ _ hi

/-- C2 witness: the raw write issue of line 10 of kernel `k2` is represented
in the deduplicated output. -/
theorem c2_dedup_witness :
    ∃ j ∈ checkNoWritesToReadonlyFields exS1 exNode2,
      renderWrite j = renderWrite (Issue.writeToReadOnly 10 "k2" "qpos0" "Model") :=
  (c2_dedup_by_rendered_text exS1 exNode2).2.2
    (Issue.writeToReadOnly 10 "k2" "qpos0" "Model") (by decide)

/-- C3: the claim (and the spec) say an unannotated parameter yields exactly
one Missing/invalid-annotation issue, independently of the preceding
parameters.  The code reads the stale `param_type` local left by the previous
iteration: in the repository's own `_TYPE_ISSUE_CODE` test kernel
`test_type_issue(qpos0: str, qvel)` the unannotated `qvel` yields TWO
TypeIssues (one with empty type, one with the stale type `str`); and when the
FIRST parameter is unannotated, the read raises `UnboundLocalError`, aborting
analysis of the whole remaining file (here: the following kernel's VarArgs
issue is lost) — which also makes the repository's own `test_all_issues` test
fail.  The claim is right, the code is wrong: a code bug. -/
theorem c3_stale_param_type :
    (analyze exS3 ⟨[], .parsed ⟨[exNode3]⟩⟩).countP
      (fun i => match i with
        | .typeIssue _ _ pn _ _ => pn == "qvel"
        | _ => false) = 2 ∧
    analyze exS3 ⟨[], .parsed ⟨[exNode3b, exNode3c]⟩⟩ =
      [Issue.typeIssue 2 "t3b" "x" "" expectedTypesStr] := by
  decide

/-- C4 counterexample: `f4a` is decorated with the attribute access
`wp.kernel`; the decorator scan evaluates `.id` on it and raises
`AttributeError`, so with `f4a` present the kernel `t3c` that follows it in
walk order loses its VarArgs issue (`analyze` returns `[]`), while `t3c`
alone yields it — contradicting the claim that such functions are simply
skipped without affecting the others. -/
theorem c4_counter_attribute_decorator_suppresses :
    analyze exS3 ⟨[], .parsed ⟨[exNode4a, exNode3c]⟩⟩ = [] ∧
    analyze exS3 ⟨[], .parsed ⟨[exNode3c]⟩⟩ = [Issue.varArgs 8 "t3c"] := by
  decide

/-- C4 (amended): a function whose decorator list makes the kernel test fault
(any decorator that is not a bare `ast.Name` reached before a bare `kernel`)
contributes no issues itself AND stops the walk: `analyze` returns exactly the
issues accumulated from the functions visited before it; all later functions
are not analyzed. -/
theorem c4_nonname_decorator_aborts_walk (s : Schema) (lines : List String)
    (n : FunctionDef) (rest : List FunctionDef) (acc : List Issue)
    (h : decoratorsContainKernel n.decoratorList = .error ()) :
    processNode s lines n = .error [] ∧
    analyzeWalk s lines (n :: rest) acc = acc := by
  have hp : processNode s lines n = .error [] := by
    unfold processNode; rw [h]
  refine ⟨hp, ?_⟩
  rw [analyzeWalk_fault s lines n rest acc [] hp, List.append_nil]

/-- C4 witness: with the `wp.kernel`-decorated `f4a` at the head of the walk
and accumulated issues `[Issue.varArgs 8 "t3c"]`, the walk returns exactly
the accumulated issues. -/
theorem c4_nonname_decorator_witness :
    analyzeWalk exS3 [] (exNode4a :: [exNode3c]) [Issue.varArgs 8 "t3c"] =
      [Issue.varArgs 8 "t3c"] :=
  (c4_nonname_decorator_aborts_walk exS3 [] exNode4a [exNode3c]
    [Issue.varArgs 8 "t3c"] (by decide)).2

/-- C5: `analyze` never propagates an exception: a `SyntaxError` yields the
empty issue list, and an internal fault while processing a walked function
makes the walk return the issues accumulated so far plus the partial issues
the faulting function appended before the fault (every fault of the embedding
is a value that `analyzeWalk` catches, exactly as the source's
`except SyntaxError`/`except Exception` do). -/
theorem c5_analyze_never_raises :
    (∀ (s : Schema) (lines : List String), analyze s ⟨lines, .syntaxError⟩ = []) ∧
    (∀ (s : Schema) (lines : List String) (n : FunctionDef) (rest : List FunctionDef)
      (acc p : List Issue), processNode s lines n = .error p →
        analyzeWalk s lines (n :: rest) acc = acc ++ p) := by
  constructor
  · intro s lines; rfl
  · intro s lines n rest acc p h
    exact analyzeWalk_fault s lines n rest acc p h

/-- C5 witness: a syntax-error source yields `[]`, and the kernel `t3b`
(whose first parameter is unannotated, raising `UnboundLocalError` mid-check)
makes the walk return exactly the partial issue list appended before the
fault. -/
theorem c5_analyze_never_raises_witness :
    analyze exS3 ⟨[], .syntaxError⟩ = [] ∧
    analyzeWalk exS3 [] (exNode3b :: [exNode3c]) [] =
      [] ++ [Issue.typeIssue 2 "t3b" "x" "" expectedTypesStr] :=
  ⟨c5_analyze_never_raises.1 exS3 [],
   c5_analyze_never_raises.2 exS3 [] exNode3b [exNode3c] []
     [Issue.typeIssue 2 "t3b" "x" "" expectedTypesStr] (by decide)⟩

/-- C6 counterexample: kernel `k6` has a parameter annotated with the
subscript `List[int]`.  The claim says the annotation checks degrade to an
opaque string, emit at most an invalid-type issue, and the remaining checks
and later functions still run.  In fact `_check_parameter_types` evaluates
`.id` on the `ast.Subscript` and raises `AttributeError`: `k6` gets NO
invalid-type issue (only the shape issue emitted before the fault) and the
following kernel `t3c` is never analyzed. -/
theorem c6_counter_subscript_annotation_aborts :
    analyze exS3 ⟨[], .parsed ⟨[exNode6, exNode3c]⟩⟩ = [Issue.varArgs 2 "k6"] ∧
    analyze exS3 ⟨[], .parsed ⟨[exNode3c]⟩⟩ = [Issue.varArgs 8 "t3c"] := by
  decide

/-- C6 (amended): a kernel whose first parameter carries a subscript
annotation makes `_check_parameter_types` raise before emitting anything for
that parameter; `analyze` catches the fault and returns the issues
accumulated before it plus only the kernel's shape issues (emitted before the
fault); the kernel's remaining checks and all later functions do not run. -/
theorem c6_subscript_annotation_faults (s : Schema) (lines : List String)
    (node : FunctionDef) (rest : List FunctionDef) (acc : List Issue)
    (pn : String) (e : Expr) (l : Nat) (ps : List Param)
    (hargs : node.args.args = ⟨pn, some (.subscriptE e l)⟩ :: ps)
    (hk : decoratorsContainKernel node.decoratorList = .ok true) :
    analyzeWalk s lines (node :: rest) acc = acc ++ shapeIssues node := by
  have hpk : processKernel s lines node = .error (shapeIssues node) := by
    unfold processKernel
    rw [cpt_first_subscript_faults hargs]
    simp
  have hp : processNode s lines node = .error (shapeIssues node) := by
    unfold processNode; rw [hk]; exact hpk
  exact analyzeWalk_fault s lines node rest acc _ hp

/-- C6 witness: the subscript-annotated kernel `k6` aborts the walk with only
its shape issues. -/
theorem c6_subscript_annotation_witness :
    analyzeWalk exS3 [] (exNode6 :: [exNode3c]) [] = [] ++ shapeIssues exNode6 :=
  c6_subscript_annotation_faults exS3 [] exNode6 [exNode3c] []
    "x" (.name "List" 3) 3 [] rfl (by decide)

/-- C7 counterexample: the claim quantifies over an arbitrary schema; for the
schema in which `a` is both a Model and a Data field, the name `a` satisfies
both the Model and the Data-regular class predicates at once, so the five
classes do NOT partition. -/
theorem c7_counter_overlapping_schema :
    isModelClass exS7 "a" = true ∧ isDataRegularClass exS7 "a" = true ∧
    classCount exS7 "a" ≠ 1 := by
  decide

/-- C7 (amended): for every schema whose Model field names are disjoint from
the EXPANDED Data field names (canonical ∪ `_in` ∪ `_out` forms — the
property the real mjwarp schema has), every parameter name satisfies exactly
one of the five classes Model / Data-regular / Data-in / Data-out / Other. -/
theorem c7_classes_partition (s : Schema) (n : String)
    (hdisj : ∀ x ∈ modelNames s, x ∉ expandedDataNames s) :
    classCount s n = 1 :=
  classCount_of_disjoint hdisj

/-- C7 witness: with Model field `qpos0` and Data field `qvel` (disjoint from
the expanded Data names), the name `qvel_in` falls in exactly one class. -/
theorem c7_classes_partition_witness : classCount exS7b "qvel_in" = 1 :=
  c7_classes_partition exS7b "qvel_in" (by decide)

/-- C8: a kernel declaring at least one keyword-only parameter always gets a
Defaults-forbidden issue, even when no parameter has a default value: the
parser stores one placeholder (`None`) per keyword-only parameter in
`kw_defaults`, so `node.args.kw_defaults` is a non-empty list and the
truthiness test `node.args.defaults or node.args.kw_defaults` succeeds. -/
theorem c8_kwonly_placeholder_triggers_defaults_issue (s : Schema)
    (lines : List String) (node : FunctionDef)
    (hk : decoratorsContainKernel node.decoratorList = .ok true)
    (hkw : node.args.kwonlyargs ≠ [])
    (hlen : node.args.kwDefaults.length = node.args.kwonlyargs.length)
    (hdef : node.args.defaults = [])
    (hnone : node.args.kwDefaults.all Option.isNone = true) :
    Issue.defaultsParams node.lineno node.name ∈
      analyze s ⟨lines, .parsed ⟨[node]⟩⟩ := by
  have hne : node.args.kwDefaults.isEmpty = false := by
    rcases hkd : node.args.kwDefaults with _ | ⟨d, ds⟩
    · rw [hkd] at hlen
      exact absurd (List.eq_nil_of_length_eq_zero hlen.symm) hkw
    · rfl
  have hcond : (!node.args.defaults.isEmpty || !node.args.kwDefaults.isEmpty) = true := by
    rw [hne]; simp
  have hmem : Issue.defaultsParams node.lineno node.name ∈ shapeIssues node := by
    unfold shapeIssues
    apply List.mem_append_left
    apply List.mem_append_left
    rw [if_pos hcond]
    simp
  show Issue.defaultsParams node.lineno node.name ∈ analyzeWalk s lines [node] []
  obtain ⟨rest', hor⟩ := processKernel_starts_with_shape s lines node
  have hpn : processNode s lines node = processKernel s lines node := by
    unfold processNode; rw [hk]
  rcases hor with hok | herr
  · have hw : analyzeWalk s lines [node] [] = shapeIssues node ++ rest' := by
      unfold analyzeWalk
      rw [hpn, hok]
      unfold analyzeWalk
      simp
    rw [hw]
    exact List.mem_append_left _ hmem
  · have hw : analyzeWalk s lines [node] [] = shapeIssues node ++ rest' := by
      unfold analyzeWalk
      rw [hpn, herr]
      simp
    rw [hw]
    exact List.mem_append_left _ hmem

/-- C8 witness: kernel `k8` declares one keyword-only parameter with no
default (`kw_defaults = [None]`, no positional defaults) and receives a
Defaults-forbidden issue. -/
theorem c8_kwonly_witness :
    Issue.defaultsParams 3 "k8" ∈ analyze exS3 ⟨[], .parsed ⟨[exNode8]⟩⟩ :=
  c8_kwonly_placeholder_triggers_defaults_issue exS3 [] exNode8
    (by decide) (List.cons_ne_nil _ _) rfl rfl rfl

/-- C9: one Data-field-invalid-suffix issue is emitted per canonical Data
field `f` such that the parameter's name starts with `f_` (given that the
name is not a valid expanded Data field and does not end in `_in`/`_out`):
the number of issues for such a parameter equals the number of matching
canonical fields, so a canonical field that is a prefix of another yields one
issue per matching field for the same parameter. -/
theorem c9_one_issue_per_matching_field (s : Schema) (node : FunctionDef) (p : Param)
    (hc : (expandedDataNames s).contains p.arg = false)
    (hin : strEndsWith p.arg "_in" = false)
    (hout : strEndsWith p.arg "_out" = false) :
    (dataSuffixIssuesForParam s node.lineno node.name p).length =
      (rawDataNames s).countP (fun f => strStartsWith p.arg (f ++ "_")) ∧
    checkDataFieldSuffixes s node =
      node.args.args.flatMap (dataSuffixIssuesForParam s node.lineno node.name) := by
  refine ⟨?_, rfl⟩
  unfold dataSuffixIssuesForParam
  rw [hc]
  simp only [Bool.false_eq_true, if_false, hin, hout, Bool.or_self, Bool.not_false,
    Bool.and_true]
  exact length_filterMap_ite _ _ _

/-- C9 witness: with Data fields `act` and `act_dot`, the single parameter
`act_dot_foo` of kernel `k9` produces one issue per matching field — two. -/
theorem c9_two_matching_fields_witness :
    (dataSuffixIssuesForParam exS9 exNode9.lineno exNode9.name
        ⟨"act_dot_foo", none⟩).length =
      (rawDataNames exS9).countP (fun f => strStartsWith "act_dot_foo" (f ++ "_")) ∧
    checkDataFieldSuffixes exS9 exNode9 =
      exNode9.args.args.flatMap
        (dataSuffixIssuesForParam exS9 exNode9.lineno exNode9.name) :=
  c9_one_issue_per_matching_field exS9 exNode9 ⟨"act_dot_foo", none⟩
    (by decide) (by decide) (by decide)

/-- C10: line-number conventions of the emitted issues.  Every
`MissingCommentIssue` carries the 0-BASED index of the source line on which
the parameter's declaration text (`name:`) was found (`lines.get?` below is
0-based list indexing), whereas every other issue variant carries a `lineno`
copied verbatim from the parser's 1-based node attributes: the kernel's
`def` line (`node.lineno`) for all per-kernel checks, or the written target
node's line for a Write-to-readonly issue.  A consumer that uniformly
subtracts 1 (as the LSP server does) is therefore one line off for
Missing-comment issues. -/
theorem c10_lineno_convention (s : Schema) (lines : List String) (node : FunctionDef)
    (out : List Issue)
    (h : processKernel s lines node = .ok out ∨ processKernel s lines node = .error out) :
    ∀ i ∈ out, linenoProp lines node i :=
  processKernel_linenoProp h

/-- C10 witness: on the four-line source `exLines10`, kernel `k10`
(`def` at 1-based line 2) yields a Missing-comment issue whose `lineno` 2 is
the 0-based index of the line `"  qpos0: array2d,"`. -/
theorem c10_lineno_convention_witness :
    linenoProp exLines10 exNode10
      (Issue.missingComment 2 "k10" "qpos0" (some "array2d") "# Model") :=
  c10_lineno_convention exS1 exLines10 exNode10
    [Issue.missingComment 2 "k10" "qpos0" (some "array2d") "# Model"]
    (Or.inl (by decide)) _ (by decide)
